/-
  Verification of the in-process caching, rate-limiting and ranking core of the
  vulhub backend (TypeScript source).

  Shallow embedding:
  * `MemoryCache` models `MemoryCacheService` (adapters/cache/memory-cache.service.ts):
    a JS `Map<string, CacheEntry>` is an insertion-ordered association list with
    unique keys; `Map.set` on an existing key updates in place, on a new key
    appends; iteration order is insertion order.  `expiresAt = 0` encodes the
    source's falsy "no expiry" sentinel.  `Date.now()` is passed explicitly as
    `now` (milliseconds).
  * `CacheService` models the cache-aside facade (common/services/cache.service.ts)
    over an abstract JSON codec (`JsonModel`), since `JSON.parse`/`JSON.stringify`
    are runtime builtins external to the repository.
  * `RateLimitGuard.canActivate` models the fixed-window limiter
    (common/guards/rate-limit.guard.ts).
  * `TokenBlacklistService` models common/services/token-blacklist.service.ts.
  * The leaderboard section models the SQL of
    `LeaderboardsRepository.calculateOverallLeaderboard` relationally.
-/
import Mathlib

/-! ### JS `Map` primitives (insertion-ordered association list) -/

/-- First-match lookup, mirroring `Map.get` (keys are unique in a JS `Map`). -/
def lookupEntry {β : Type} (m : List (String × β)) (k : String) : Option β :=
  match m with
  | [] => none
  | (k', v) :: rest => if k' = k then some v else lookupEntry rest k

/-- `Map.set`: update in place when the key is present (keeping its insertion
position), otherwise append at the end. -/
def mapSet {β : Type} (m : List (String × β)) (k : String) (v : β) : List (String × β) :=
  match m with
  | [] => [(k, v)]
  | (k', v') :: rest => if k' = k then (k, v) :: rest else (k', v') :: mapSet rest k v

/-- `Map.delete`: remove the (unique) entry with the given key. -/
def mapDelete {β : Type} (m : List (String × β)) (k : String) : List (String × β) :=
  match m with
  | [] => []
  | (k', v') :: rest => if k' = k then rest else (k', v') :: mapDelete rest k

/-- `Map.has`. -/
def mapHas {β : Type} (m : List (String × β)) (k : String) : Bool :=
  (lookupEntry m k).isSome

/-! ### The in-memory TTL cache (`MemoryCacheService`) -/

/-- `interface CacheEntry` of the source; `expiresAt = 0` is the falsy
"no expiry" value the source stores when `ttl` is absent or `0`. -/
structure CacheEntry where
  value : String
  expiresAt : Nat
deriving DecidableEq

/-- The cache state.  The source hardcodes `maxSize = 10000`; it is a field
here so the bound can be instantiated (the spec's own capacity test uses 2). -/
structure MemoryCache where
  maxSize : Nat
  entries : List (String × CacheEntry)
deriving DecidableEq

/-- The default capacity of the source (`private readonly maxSize = 10000`). -/
def MemoryCache.defaultMaxSize : Nat := 10000

/-- The expiry test used on every read path:
`entry.expiresAt && Date.now() > entry.expiresAt`. -/
def isExpired (e : CacheEntry) (now : Nat) : Bool :=
  e.expiresAt ≠ 0 && now > e.expiresAt

/-- `get(key)`: lazily deletes an expired entry, returns the value otherwise. -/
def MemoryCache.get (c : MemoryCache) (now : Nat) (key : String) :
    Option String × MemoryCache :=
  match lookupEntry c.entries key with
  | none => (none, c)
  | some e =>
    if isExpired e now then (none, ⟨c.maxSize, mapDelete c.entries key⟩)
    else (some e.value, c)

/-- `set(key, value, ttl?)`: evicts the oldest-inserted entry (FIFO) when at
capacity and the key is new; `if (firstKey)` skips eviction when the first key
is the empty string (falsy).  `expiresAt = ttl ? now + ttl*1000 : 0`. -/
def MemoryCache.set (c : MemoryCache) (now : Nat) (key value : String)
    (ttl : Option Nat) : MemoryCache :=
  let entries₁ :=
    if c.entries.length ≥ c.maxSize ∧ ¬ (mapHas c.entries key) then
      match c.entries.head? with
      | some (firstKey, _) => if firstKey = "" then c.entries else mapDelete c.entries firstKey
      | none => c.entries
    else c.entries
  let expiresAt : Nat :=
    match ttl with
    | some t => if t = 0 then 0 else now + t * 1000
    | none => 0
  ⟨c.maxSize, mapSet entries₁ key ⟨value, expiresAt⟩⟩

/-- `setex(key, ttl, value)` is `set(key, value, ttl)`. -/
def MemoryCache.setex (c : MemoryCache) (now : Nat) (key : String) (ttl : Nat)
    (value : String) : MemoryCache :=
  c.set now key value (some ttl)

/-- `del(key) -> 0|1`. -/
def MemoryCache.del (c : MemoryCache) (key : String) : Nat × MemoryCache :=
  if mapHas c.entries key then (1, ⟨c.maxSize, mapDelete c.entries key⟩) else (0, c)

/-- `exists(key)`: like `get`, deleting lazily. -/
def MemoryCache.existsKey (c : MemoryCache) (now : Nat) (key : String) :
    Bool × MemoryCache :=
  match lookupEntry c.entries key with
  | none => (false, c)
  | some e =>
    if isExpired e now then (false, ⟨c.maxSize, mapDelete c.entries key⟩)
    else (true, c)

/-- `expire(key, ttl)`: mutates `expiresAt` in place (position preserved),
with no expiry check on the existing entry. -/
def MemoryCache.expire (c : MemoryCache) (now : Nat) (key : String) (ttl : Nat) :
    Bool × MemoryCache :=
  match lookupEntry c.entries key with
  | none => (false, c)
  | some e => (true, ⟨c.maxSize, mapSet c.entries key ⟨e.value, now + ttl * 1000⟩⟩)

/-- `ttl(key)`: `-1` when the entry is absent or has falsy `expiresAt`;
otherwise `Math.floor((expiresAt - now)/1000)` if positive, else `-2`. -/
def MemoryCache.ttl (c : MemoryCache) (now : Nat) (key : String) : Int :=
  match lookupEntry c.entries key with
  | none => -1
  | some e =>
    if e.expiresAt = 0 then -1
    else
      let remaining := ((e.expiresAt : Int) - (now : Int)).fdiv 1000
      if remaining > 0 then remaining else -2

/-- JS `parseInt` (radix 10) on the strings this cache stores: skip leading
whitespace, optional sign, then the longest digit run; `none` models `NaN`. -/
def parseIntJs (s : String) : Option Int :=
  let cs := s.data.dropWhile Char.isWhitespace
  let digitsOf : List Char → Option Nat := fun l =>
    let ds := l.takeWhile Char.isDigit
    if ds.isEmpty then none
    else some (ds.foldl (fun acc ch => acc * 10 + (ch.toNat - 48)) 0)
  match cs with
  | '-' :: rest => (digitsOf rest).map (fun n => -(n : Int))
  | '+' :: rest => (digitsOf rest).map (fun n => (n : Int))
  | _ => (digitsOf cs).map (fun n => (n : Int))

/-- `parseInt(v) || 0` (NaN, 0 and -0 all collapse to 0). -/
def parseIntOr0 (s : String) : Int :=
  (parseIntJs s).getD 0

/-- Decimal rendering used by `newValue.toString()`. -/
def intToString (n : Int) : String := toString n

/-- `incr(key)`: reads the current value as a number when the entry exists and
is not expired (`!entry.expiresAt || now <= entry.expiresAt`), else starts at 0;
stores `current + 1`, preserving `entry?.expiresAt || 0`.  No capacity check. -/
def MemoryCache.incr (c : MemoryCache) (now : Nat) (key : String) :
    Int × MemoryCache :=
  let entryOpt := lookupEntry c.entries key
  let currentValue : Int :=
    match entryOpt with
    | some e => if e.expiresAt = 0 ∨ now ≤ e.expiresAt then parseIntOr0 e.value else 0
    | none => 0
  let newValue := currentValue + 1
  let expiresAt : Nat :=
    match entryOpt with
    | some e => e.expiresAt
    | none => 0
  (newValue, ⟨c.maxSize, mapSet c.entries key ⟨intToString newValue, expiresAt⟩⟩)

/-- `decr(key)`: as `incr`, but stores `Math.max(0, current - 1)`. -/
def MemoryCache.decr (c : MemoryCache) (now : Nat) (key : String) :
    Int × MemoryCache :=
  let entryOpt := lookupEntry c.entries key
  let currentValue : Int :=
    match entryOpt with
    | some e => if e.expiresAt = 0 ∨ now ≤ e.expiresAt then parseIntOr0 e.value else 0
    | none => 0
  let newValue := max 0 (currentValue - 1)
  let expiresAt : Nat :=
    match entryOpt with
    | some e => e.expiresAt
    | none => 0
  (newValue, ⟨c.maxSize, mapSet c.entries key ⟨intToString newValue, expiresAt⟩⟩)

/-! ### Operation sequences over the TTL cache (for the capacity claims) -/

/-- Mutating operations of `MemoryCacheService` relevant to the capacity
invariant. -/
inductive CacheOp where
  | opSet (key value : String) (ttl : Option Nat)
  | opSetex (key : String) (ttl : Nat) (value : String)
  | opIncr (key : String)
  | opDecr (key : String)
  | opExpire (key : String) (ttl : Nat)
  | opDel (key : String)
deriving DecidableEq

/-- The key an operation addresses. -/
def CacheOp.key : CacheOp → String
  | .opSet k _ _ => k
  | .opSetex k _ _ => k
  | .opIncr k => k
  | .opDecr k => k
  | .opExpire k _ => k
  | .opDel k => k

/-- Whether the operation is a counter update (`incr`/`decr`), which the source
performs without the capacity check. -/
def CacheOp.isCounter : CacheOp → Bool
  | .opIncr _ => true
  | .opDecr _ => true
  | _ => false

/-- Apply one operation (discarding its return value). -/
def applyOp (c : MemoryCache) (now : Nat) : CacheOp → MemoryCache
  | .opSet k v ttl => c.set now k v ttl
  | .opSetex k ttl v => c.setex now k ttl v
  | .opIncr k => (c.incr now k).2
  | .opDecr k => (c.decr now k).2
  | .opExpire k ttl => (c.expire now k ttl).2
  | .opDel k => (c.del k).2

/-- Apply a sequence of timestamped operations in order. -/
def applyOps (c : MemoryCache) : List (Nat × CacheOp) → MemoryCache
  | [] => c
  | (now, op) :: rest => applyOps (applyOp c now op) rest

/-- The spec's own capacity test: `maxSize = 2`, keys `a`, `b`, `c` inserted
in order (no TTL). -/
def fifoExampleCache : MemoryCache :=
  applyOps ⟨2, []⟩
    [(0, .opSet "a" "va" none), (0, .opSet "b" "vb" none), (0, .opSet "c" "vc" none)]

/-! ### The cache-aside facade (`CacheService`)

`JSON.parse` and `JSON.stringify` are runtime builtins, external to the
repository; they are modelled as an abstract codec over an abstract type `α`
of JSON-representable values.  `jnull` is the distinguished value `null`,
which the facade also uses to signal a miss (in TypeScript both are the single
value `null`, so a cached `null` and a miss are indistinguishable). -/

structure JsonModel (α : Type) where
  stringify : α → String
  parse : String → Option α
  jnull : α
  roundtrip : ∀ v, parse (stringify v) = some v
  stringify_nonempty : ∀ v, stringify v ≠ ""
  stringify_null : stringify jnull = "null"

/-- `CacheOptions` of the source.  The source's `serialize` flag defaults to
`true` and every claim concerns serialized values, so the model fixes it at its
default; the source field named after the key namespace is a reserved word in
Lean and is called `pfx` here. -/
structure CacheOptions where
  ttl : Option Nat := none
  pfx : Option String := none
deriving DecidableEq

/-- `private readonly defaultTTL = 3600`. -/
def CacheService.defaultTTL : Nat := 3600

/-- `buildKey`: namespacing by `pfx:key` when a namespace is supplied. -/
def buildKey (key : String) (pfx : Option String) : String :=
  match pfx with
  | some p => p ++ ":" ++ key
  | none => key

/-- `options.ttl || this.defaultTTL` (JS `||`: a `ttl` of `0` also falls back
to the default). -/
def effectiveTTL (opts : CacheOptions) : Nat :=
  match opts.ttl with
  | some t => if t = 0 then CacheService.defaultTTL else t
  | none => CacheService.defaultTTL

/-- Facade `get`: `null` (here `J.jnull`) when the raw value is absent or falsy
(the empty string), otherwise `JSON.parse`; a parse failure is caught and also
yields `null`. -/
def CacheService.get {α : Type} (J : JsonModel α) (c : MemoryCache) (now : Nat)
    (key : String) (opts : CacheOptions) : α × MemoryCache :=
  let fullKey := buildKey key opts.pfx
  match c.get now fullKey with
  | (none, c₁) => (J.jnull, c₁)
  | (some s, c₁) =>
    if s = "" then (J.jnull, c₁)
    else
      match J.parse s with
      | some v => (v, c₁)
      | none => (J.jnull, c₁)

/-- Facade `set`: stores `JSON.stringify value` under the namespaced key with
the effective TTL. -/
def CacheService.set {α : Type} (J : JsonModel α) (c : MemoryCache) (now : Nat)
    (key : String) (v : α) (opts : CacheOptions) : MemoryCache :=
  c.setex now (buildKey key opts.pfx) (effectiveTTL opts) (J.stringify v)

/-- Facade `getOrSet`.  The factory is indexed by invocation number so the
number of calls is observable, and may fail (`Except`).  Control flow of the
source: the inner `get`/`set` catch their own backend errors, so the outer
`try/catch` is reached exactly when `factory` throws; the catch block then
calls `factory()` once more ("fallback to factory if cache fails") and that
second outcome — value or error — is what reaches the caller, without caching.
Returns (outcome, number of factory invocations, resulting cache). -/
def CacheService.getOrSet {α ε : Type} [DecidableEq α] (J : JsonModel α)
    (c : MemoryCache) (now : Nat) (key : String) (factory : Nat → Except ε α)
    (opts : CacheOptions) : (Except ε α × Nat) × MemoryCache :=
  match CacheService.get J c now key opts with
  | (cached, c₁) =>
    if cached ≠ J.jnull then ((.ok cached, 0), c₁)
    else
      match factory 0 with
      | .ok v => ((.ok v, 1), CacheService.set J c₁ now key v opts)
      | .error _ =>
        match factory 1 with
        | .ok v => ((.ok v, 2), c₁)
        | .error e => ((.error e, 2), c₁)

/-- A concrete codec instance used to instantiate the abstract theorems on
explicit inputs.  Real `JSON.parse`/`JSON.stringify` restricted to the
literals `null`, `true` and `false`, which satisfies every `JsonModel` field. -/
inductive JVal where
  | jnull
  | jbool (b : Bool)
deriving DecidableEq

/-- The codec instance for `JVal`. -/
def jvalModel : JsonModel JVal where
  stringify v :=
    match v with
    | .jnull => "null"
    | .jbool true => "true"
    | .jbool false => "false"
  parse s :=
    if s = "null" then some .jnull
    else if s = "true" then some (.jbool true)
    else if s = "false" then some (.jbool false)
    else none
  jnull := .jnull
  roundtrip := by
    intro v
    rcases v with _ | b
    · decide
    · rcases b with _ | _ <;> decide
  stringify_nonempty := by
    intro v
    rcases v with _ | b
    · decide
    · rcases b with _ | _ <;> decide
  stringify_null := rfl

/-! ### Token revocation store (`TokenBlacklistService`) -/

/-- Error kind for a failing cache backend lookup (the in-memory backend never
fails, but the service's `try/catch` is written against a fallible interface). -/
inductive CacheError where
  | backendFailure
deriving DecidableEq

/-- Revocation keys: `blacklist:<token>`. -/
def blacklistKey (token : String) : String := "blacklist:" ++ token

/-- `blacklistToken(token, userId, expiresIn)`: stores the owning user id under
the token's key with TTL `Math.max(expiresIn, 3600)`. -/
def TokenBlacklistService.blacklistToken (c : MemoryCache) (now : Nat)
    (token userId : String) (expiresIn : Nat) : MemoryCache :=
  c.setex now (blacklistKey token) (max expiresIn 3600) userId

/-- The decision `isTokenBlacklisted` makes from the backend lookup outcome:
a backend error is caught and yields `false` (fail open); otherwise
`!!result`, so `null` and the empty string are both `false`. -/
def isTokenBlacklistedOf (result : Except CacheError (Option String)) : Bool :=
  match result with
  | .error _ => false
  | .ok none => false
  | .ok (some v) => v ≠ ""

/-- `isTokenBlacklisted(token)` against the in-memory backend (which cannot
fail): look up `blacklist:<token>` and apply the `!!result` coercion. -/
def TokenBlacklistService.isTokenBlacklisted (c : MemoryCache) (now : Nat)
    (token : String) : Bool × MemoryCache :=
  match c.get now (blacklistKey token) with
  | (r, c₁) => (isTokenBlacklistedOf (.ok r), c₁)

/-! ### The rate limiter (`RateLimitGuard.canActivate`) -/

/-- A policy entry of the guard's policy table: `{max, window}` (window in
seconds). -/
structure RateLimitPolicy where
  max : Nat
  window : Nat
deriving DecidableEq

/-- The admission decision.  A rejection carries the fields of the thrown
429 payload that are numeric: `retryAfter`, `limit`, `remaining` (the literal
0 of the source) and `resetTime = now + retryAfter*1000`. -/
inductive RateDecision where
  | admitted
  | rejected (retryAfter : Int) (limit : Nat) (remaining : Nat) (resetTime : Int)
deriving DecidableEq

/-- Counter keys: `rate_limit:<identifier>:<endpoint>`. -/
def rateLimitKey (identifier endpoint : String) : String :=
  "rate_limit:" ++ identifier ++ ":" ++ endpoint

/-- `getTTL` of the guard: the backend `ttl` clamped to 0 when not positive. -/
def getTTLClamped (c : MemoryCache) (now : Nat) (key : String) : Int :=
  let t := c.ttl now key
  if t > 0 then t else 0

/-- One request through the guard.  `current ? parseInt(current) : 0` is
modelled with `none` as `NaN` (a non-numeric stored string): `NaN >= max` is
false and `NaN === 0` is false, so a `NaN` count takes the `incr` branch.
The pre-increment count is compared against `max` and a rejection happens
before any write. -/
def RateLimitGuard.canActivate (c : MemoryCache) (now : Nat)
    (limits : RateLimitPolicy) (identifier endpoint : String) :
    RateDecision × MemoryCache :=
  let key := rateLimitKey identifier endpoint
  match c.get now key with
  | (current, c₁) =>
    let count : Option Int :=
      match current with
      | none => some 0
      | some s => if s = "" then some 0 else parseIntJs s
    let overLimit : Bool :=
      match count with
      | some n => n ≥ (limits.max : Int)
      | none => false
    if overLimit then
      let retryAfter := (limits.window : Int) - getTTLClamped c₁ now key
      (.rejected retryAfter limits.max 0 ((now : Int) + retryAfter * 1000), c₁)
    else
      if count = some 0 then
        (.admitted, c₁.setex now key limits.window "1")
      else
        (.admitted, (c₁.incr now key).2)

/-- A sequence of requests for one `(identifier, endpoint)` at the given
times, returning the decisions in order and the final cache. -/
def runRateRequests (c : MemoryCache) (limits : RateLimitPolicy)
    (identifier endpoint : String) : List Nat → List RateDecision × MemoryCache
  | [] => ([], c)
  | t :: ts =>
    match RateLimitGuard.canActivate c t limits identifier endpoint with
    | (d, c') =>
      match runRateRequests c' limits identifier endpoint ts with
      | (ds, c'') => (d :: ds, c'')

/-! ### The ranking engine (`LeaderboardsRepository.calculateOverallLeaderboard`)

The repository issues one SQL query; its relational semantics over the three
tables it touches is embedded directly.  Primary keys make `User.id` unique,
so `GROUP BY u.id, ...` is one group per user and the model maps over users. -/

/-- `SubmissionStatusEnum` of the source. -/
inductive SubmissionStatus where
  | pending
  | approved
  | rejected
deriving DecidableEq, BEq

/-- `UserStatusEnum` of the source. -/
inductive UserStatus where
  | active
  | inactive
  | suspended
deriving DecidableEq, BEq

/-- The `Submission` columns the query reads.  `score` is nullable
(`z.number().int().nullable()` in the shared schema); timestamps are epoch
milliseconds. -/
structure Submission where
  id : String
  userId : String
  score : Option Int
  status : SubmissionStatus
  createdAt : Int
deriving DecidableEq

/-- The `User` columns the query reads. -/
structure User where
  id : String
  firstName : String
  lastName : String
  email : String
  avatarUrl : Option String
  status : UserStatus
deriving DecidableEq

/-- The `Badge` column the query's join condition reads (`ON u.id = b.id`). -/
structure Badge where
  id : String
deriving DecidableEq

/-- The data-source state the query runs against. -/
structure Db where
  users : List User
  submissions : List Submission
  badges : List Badge

/-- A computed leaderboard row (interface `LeaderboardEntry`).  `averageScore`
is a SQL `AVG`, hence rational. -/
structure LeaderboardEntry where
  userId : String
  firstName : String
  lastName : String
  email : String
  avatarUrl : Option String
  totalScore : Int
  totalSubmissions : Nat
  approvedSubmissions : Nat
  averageScore : Rat
  rank : Nat
  badges : Nat
  lastSubmissionAt : Option Int
deriving DecidableEq

/-- `getDateFilter`: `week`/`month` give `now - 7d`/`now - 30d`; `all` or no
range gives no filter. -/
inductive TimeRange where
  | week
  | month
  | all
deriving DecidableEq

def getDateFilter (now : Int) (timeRange : Option TimeRange) : Option Int :=
  match timeRange with
  | none => none
  | some .all => none
  | some .week => some (now - 7 * 24 * 60 * 60 * 1000)
  | some .month => some (now - 30 * 24 * 60 * 60 * 1000)

/-- The date condition `s."createdAt" >= $1` (absent when no filter). -/
def inTimeFilter (cutoff : Option Int) (s : Submission) : Bool :=
  match cutoff with
  | none => true
  | some d => s.createdAt ≥ d

/-- The submissions joined to a user:
`LEFT JOIN "Submission" s ON u.id = s."userId" [AND s."createdAt" >= $1]`. -/
def submissionsOf (db : Db) (cutoff : Option Int) (u : User) : List Submission :=
  db.submissions.filter (fun s => s.userId == u.id && inTimeFilter cutoff s)

/-- The badges joined to a user: `LEFT JOIN "Badge" b ON u.id = b.id` (the
join key of the source compares the badge's own id to the user id). -/
def badgesOf (db : Db) (u : User) : List Badge :=
  db.badges.filter (fun b => b.id == u.id)

/-- The joined rows of one user's group: a LEFT JOIN contributes one all-NULL
row when a side is empty, and the two joins multiply otherwise. -/
def joinRows (subs : List Submission) (bs : List Badge) :
    List (Option Submission × Option Badge) :=
  let left := if subs.isEmpty then [none] else subs.map some
  left.flatMap (fun s => if bs.isEmpty then [(s, none)] else bs.map (fun b => (s, some b)))

/-- One group's aggregates, with `rank` left at 0 (the SQL has no rank column;
it is assigned afterwards from the row index):
`totalScore = COALESCE(SUM(s.score), 0)` (all statuses; `SUM` skips NULLs),
`totalSubmissions = COUNT(s.id)`,
`approvedSubmissions = COUNT(CASE WHEN s.status = 'APPROVED' THEN 1 END)`,
`averageScore = COALESCE(AVG(CASE WHEN s.status = 'APPROVED' THEN s.score END), 0)`
(`AVG` skips NULLs), `badges = COUNT(b.id)`,
`lastSubmissionAt = MAX(s."createdAt")`. -/
def aggregateFor (db : Db) (cutoff : Option Int) (u : User) : LeaderboardEntry :=
  let rows := joinRows (submissionsOf db cutoff u) (badgesOf db u)
  let subRows := rows.filterMap (fun r => r.1)
  let approvedScores : List Int := subRows.filterMap
    (fun s => if s.status == .approved then s.score else none)
  { userId := u.id
    firstName := u.firstName
    lastName := u.lastName
    email := u.email
    avatarUrl := u.avatarUrl
    totalScore := (subRows.map (fun s => s.score.getD 0)).sum
    totalSubmissions := subRows.length
    approvedSubmissions := (subRows.filter (fun s => s.status == .approved)).length
    averageScore :=
      if approvedScores.length = 0 then 0
      else ((approvedScores.map (fun n => (n : Rat))).sum) / (approvedScores.length : Rat)
    rank := 0
    badges := (rows.filter (fun r => r.2.isSome)).length
    lastSubmissionAt := (subRows.map (fun s => s.createdAt)).max? }

/-- `ORDER BY "totalScore" DESC, "approvedSubmissions" DESC, "averageScore"
DESC`: `a` may be placed before `b` when this holds. -/
def entryBefore (a b : LeaderboardEntry) : Prop :=
  a.totalScore > b.totalScore ∨
    (a.totalScore = b.totalScore ∧
      (a.approvedSubmissions > b.approvedSubmissions ∨
        (a.approvedSubmissions = b.approvedSubmissions ∧
          b.averageScore ≤ a.averageScore)))

instance : DecidableRel entryBefore := fun a b => by
  unfold entryBefore
  exact inferInstance

instance : IsTotal LeaderboardEntry entryBefore where
  total a b := by
    unfold entryBefore
    rcases lt_trichotomy a.totalScore b.totalScore with h | h | h
    · right; left; exact h
    · rcases lt_trichotomy a.approvedSubmissions b.approvedSubmissions with h2 | h2 | h2
      · right; right; exact ⟨h.symm, Or.inl h2⟩
      · rcases le_total b.averageScore a.averageScore with h3 | h3
        · left; right; exact ⟨h, Or.inr ⟨h2, h3⟩⟩
        · right; right; exact ⟨h.symm, Or.inr ⟨h2.symm, h3⟩⟩
      · left; right; exact ⟨h, Or.inl h2⟩
    · left; left; exact h

instance : IsTrans LeaderboardEntry entryBefore where
  trans a b c hab hbc := by
    unfold entryBefore at *
    rcases hab with h1 | ⟨e1, h1⟩
    · rcases hbc with h2 | ⟨e2, h2⟩
      · left; exact h2.trans h1
      · left; omega
    · rcases hbc with h2 | ⟨e2, h2⟩
      · left; omega
      · right
        refine ⟨e1.trans e2, ?_⟩
        rcases h1 with h1 | ⟨f1, h1⟩
        · rcases h2 with h2 | ⟨f2, h2⟩
          · left; exact h2.trans h1
          · left; omega
        · rcases h2 with h2 | ⟨f2, h2⟩
          · left; omega
          · right; exact ⟨f1.trans f2, h2.trans h1⟩

/-- `results.map((row, index) => ({..., rank: index + 1}))`: assign 1-based
positions.  `assignRanks i l` gives positions `i, i+1, ...`. -/
def assignRanks : Nat → List LeaderboardEntry → List LeaderboardEntry
  | _, [] => []
  | i, e :: es => { e with rank := i } :: assignRanks (i + 1) es

/-- `calculateOverallLeaderboard(timeRange)`: filter to `ACTIVE` users,
aggregate per group, sort by the three-key descending order and assign ranks
by position.  The data source's order among fully tied rows is unspecified;
the model fixes a stable insertion sort, and no theorem below depends on the
choice beyond sortedness. -/
def calculateOverallLeaderboard (db : Db) (now : Int)
    (timeRange : Option TimeRange) : List LeaderboardEntry :=
  let cutoff := getDateFilter now timeRange
  let activeUsers := db.users.filter (fun u => u.status == .active)
  let entries := activeUsers.map (aggregateFor db cutoff)
  assignRanks 1 (List.insertionSort entryBefore entries)

/-- The spec's ranking-determinism example: two active users tied at
`totalScore = 100` with 2 and 3 approved submissions respectively. -/
def exampleU1 : User := ⟨"u1", "A", "One", "a@x", none, .active⟩

def exampleU2 : User := ⟨"u2", "B", "Two", "b@x", none, .active⟩

def exampleDb : Db :=
  { users := [exampleU1, exampleU2]
    submissions :=
      [⟨"s1", "u1", some 50, .approved, 0⟩,
       ⟨"s2", "u1", some 50, .approved, 0⟩,
       ⟨"s3", "u2", some 34, .approved, 0⟩,
       ⟨"s4", "u2", some 33, .approved, 0⟩,
       ⟨"s5", "u2", some 33, .approved, 0⟩]
    badges := [] }

/-- A data-source state with one active user whose only submission is
rejected with a score: distinguishes "sum of all scores" from "sum of
approved scores". -/
def rejectedScoreDb : Db :=
  { users := [⟨"u1", "A", "One", "a@x", none, .active⟩]
    submissions := [⟨"s1", "u1", some 50, .rejected, 0⟩]
    badges := [] }

/-! ### Remaining spec-side definitions -/

/-- The `ttl` return convention as amended: `-1` when the key is absent or the
entry has no expiry; for a present entry with an expiry, the floored remaining
seconds when at least one full second remains, else `-2` (expired, or unexpired
with under a second left). -/
def ttlSpec (c : MemoryCache) (now : Nat) (key : String) : Int :=
  match lookupEntry c.entries key with
  | none => -1
  | some e =>
    if e.expiresAt = 0 then -1
    else if 1000 ≤ (e.expiresAt : Int) - (now : Int) then
      ((e.expiresAt : Int) - (now : Int)).fdiv 1000
    else -2

/-- The non-absent scores of a user's approved submissions within the filter
(the values `AVG(CASE WHEN s.status = 'APPROVED' THEN s.score END)` averages). -/
def approvedScoresOf (db : Db) (cutoff : Option Int) (u : User) : List Int :=
  (submissionsOf db cutoff u).filterMap
    (fun s => if s.status == .approved then s.score else none)

/-- All keys of a cache state are nonempty strings (the empty string is falsy
in JS and defeats the eviction's `if (firstKey)` guard). -/
def keysNonempty (c : MemoryCache) : Prop :=
  ∀ p ∈ c.entries, p.1 ≠ ""

deriving instance DecidableEq for Except

/-! ### Helper lemmas about the map primitives -/

lemma lookupEntry_mapSet_self {β : Type} (m : List (String × β)) (k : String) (v : β) :
    lookupEntry (mapSet m k v) k = some v := by
  induction m with
  | nil => simp [mapSet, lookupEntry]
  | cons p rest ih =>
    obtain ⟨a, b⟩ := p
    by_cases h : a = k <;> simp [mapSet, lookupEntry, h, ih]

lemma lookupEntry_mapSet_ne {β : Type} (m : List (String × β)) (k k' : String) (v : β)
    (h : k' ≠ k) : lookupEntry (mapSet m k v) k' = lookupEntry m k' := by
  have h' : ¬ (k = k') := fun hh => h hh.symm
  induction m with
  | nil => simp [mapSet, lookupEntry, h']
  | cons p rest ih =>
    obtain ⟨a, b⟩ := p
    by_cases ha : a = k
    · subst ha
      simp [mapSet, lookupEntry, h']
    · simp [mapSet, lookupEntry, ha, ih]

lemma length_mapSet {β : Type} (m : List (String × β)) (k : String) (v : β) :
    (mapSet m k v).length = if mapHas m k then m.length else m.length + 1 := by
  induction m with
  | nil => simp [mapSet, mapHas, lookupEntry]
  | cons p rest ih =>
    obtain ⟨a, b⟩ := p
    by_cases ha : a = k
    · simp [mapSet, mapHas, lookupEntry, ha]
    · simp only [mapSet, mapHas, lookupEntry, ha, if_false, if_neg, not_false_iff,
        List.length_cons]
      simp only [mapHas] at ih
      rw [ih]
      by_cases h2 : (lookupEntry rest k).isSome <;> simp [h2]

lemma length_mapDelete_of_has {β : Type} (m : List (String × β)) (k : String)
    (h : mapHas m k = true) : (mapDelete m k).length + 1 = m.length := by
  induction m with
  | nil => simp [mapHas, lookupEntry] at h
  | cons p rest ih =>
    obtain ⟨a, b⟩ := p
    by_cases ha : a = k
    · simp [mapDelete, ha]
    · simp only [mapHas, lookupEntry, ha, if_false, if_neg, not_false_iff] at h
      simp [mapDelete, ha, ih h]

lemma length_mapDelete_le {β : Type} (m : List (String × β)) (k : String) :
    (mapDelete m k).length ≤ m.length := by
  induction m with
  | nil => simp [mapDelete]
  | cons p rest ih =>
    obtain ⟨a, b⟩ := p
    by_cases ha : a = k
    · simp [mapDelete, ha]
    · simp only [mapDelete, ha, if_neg, not_false_iff, List.length_cons]
      omega

lemma mem_mapSet {β : Type} (m : List (String × β)) (k : String) (v : β)
    (p : String × β) (h : p ∈ mapSet m k v) : p ∈ m ∨ p = (k, v) := by
  induction m with
  | nil => simp [mapSet] at h; simp [h]
  | cons q rest ih =>
    obtain ⟨a, b⟩ := q
    by_cases ha : a = k
    · simp only [mapSet, ha, if_pos] at h
      rcases List.mem_cons.mp h with h1 | h1
      · right; exact h1
      · left; exact List.mem_cons_of_mem _ h1
    · simp only [mapSet, ha, if_neg, not_false_iff] at h
      rcases List.mem_cons.mp h with h1 | h1
      · left; simp [h1]
      · rcases ih h1 with h2 | h2
        · left; exact List.mem_cons_of_mem _ h2
        · right; exact h2

lemma mem_mapDelete {β : Type} (m : List (String × β)) (k : String)
    (p : String × β) (h : p ∈ mapDelete m k) : p ∈ m := by
  induction m with
  | nil => simp [mapDelete] at h
  | cons q rest ih =>
    obtain ⟨a, b⟩ := q
    by_cases ha : a = k
    · simp only [mapDelete, ha, if_pos] at h
      exact List.mem_cons_of_mem _ h
    · simp only [mapDelete, ha, if_neg, not_false_iff] at h
      rcases List.mem_cons.mp h with h1 | h1
      · simp [h1]
      · exact List.mem_cons_of_mem _ (ih h1)

lemma fdiv1000_pos_iff (a : Int) : 0 < a.fdiv 1000 ↔ 1000 ≤ a := by
  have h1 := Int.fmod_add_fdiv a 1000
  have h2 : 0 ≤ a.fmod 1000 := Int.fmod_nonneg' a (by norm_num)
  have h3 : a.fmod 1000 < 1000 := Int.fmod_lt_of_pos a (by norm_num)
  omega

lemma fdiv1000_bounds (a : Int) :
    1000 * (a.fdiv 1000) ≤ a ∧ a < 1000 * (a.fdiv 1000) + 1000 := by
  have h1 := Int.fmod_add_fdiv a 1000
  have h2 : 0 ≤ a.fmod 1000 := Int.fmod_nonneg' a (by norm_num)
  have h3 : a.fmod 1000 < 1000 := Int.fmod_lt_of_pos a (by norm_num)
  omega

/-! ### C5 — `ttl` return convention -/

/-- C5 counterexample: the claim says `ttl` returns `-2` exactly when the key
is absent or expired, and that an absent key and an expired key agree.  On the
code an absent key yields `-1`, not `-2`, while an expired entry yields `-2`,
so the two disagree. -/
theorem ttl_absent_counterexample :
    MemoryCache.ttl ⟨10000, [("e", ⟨"v", 5⟩)]⟩ 10000 "a" = -1 ∧
    MemoryCache.ttl ⟨10000, [("e", ⟨"v", 5⟩)]⟩ 10000 "a" ≠ -2 ∧
    MemoryCache.ttl ⟨10000, [("e", ⟨"v", 5⟩)]⟩ 10000 "e" = -2 := by
  decide

/-- C5 (amended): `ttl` returns the floored remaining seconds when the key is
present with an expiry and at least one full second remains; `-1` when the key
is absent or the entry has no expiry (these two agree, not absent/expired);
and `-2` when the entry is present with an expiry and expired or within its
final second. -/
theorem ttl_return_convention (c : MemoryCache) (now : Nat) (key : String) :
    MemoryCache.ttl c now key = ttlSpec c now key := by
  unfold MemoryCache.ttl ttlSpec
  cases h : lookupEntry c.entries key with
  | none => rfl
  | some e =>
    by_cases h0 : e.expiresAt = 0
    · simp [h0]
    · simp only [h0, if_neg, not_false_iff]
      by_cases hpos : 0 < ((e.expiresAt : Int) - (now : Int)).fdiv 1000
      · rw [if_pos hpos, if_pos ((fdiv1000_pos_iff _).mp hpos)]
      · rw [if_neg hpos, if_neg]
        intro hle
        exact hpos ((fdiv1000_pos_iff _).mpr hle)

/-! ### C9 — counter semantics of `incr`/`decr` -/

/-- C9: `incr` on an absent key returns 1 and stores the counter with no
expiry; `incr` on an expired key returns 1 and preserves the entry's expiry;
`decr` on an absent key, or on a key whose stored value reads as 0, returns 0;
and `decr` never returns or stores a negative counter. -/
theorem counter_semantics :
    (∀ (c : MemoryCache) (now : Nat) (key : String),
        lookupEntry c.entries key = none →
          (c.incr now key).1 = 1 ∧
          lookupEntry (c.incr now key).2.entries key = some ⟨"1", 0⟩) ∧
    (∀ (c : MemoryCache) (now : Nat) (key : String) (e : CacheEntry),
        lookupEntry c.entries key = some e → e.expiresAt ≠ 0 → now > e.expiresAt →
          (c.incr now key).1 = 1 ∧
          lookupEntry (c.incr now key).2.entries key = some ⟨"1", e.expiresAt⟩) ∧
    (∀ (c : MemoryCache) (now : Nat) (key : String),
        (lookupEntry c.entries key = none ∨
          ∃ e, lookupEntry c.entries key = some e ∧ parseIntOr0 e.value = 0) →
          (c.decr now key).1 = 0) ∧
    (∀ (c : MemoryCache) (now : Nat) (key : String),
        0 ≤ (c.decr now key).1 ∧
        ∃ exp, lookupEntry (c.decr now key).2.entries key =
          some ⟨intToString (c.decr now key).1, exp⟩) := by
  have hone : intToString 1 = "1" := by decide
  refine ⟨?_, ?_, ?_, ?_⟩
  · intro c now key h
    simp only [MemoryCache.incr, h]
    rw [lookupEntry_mapSet_self]
    norm_num [hone]
  · intro c now key e h h0 hexp
    have hcond : ¬ (e.expiresAt = 0 ∨ now ≤ e.expiresAt) := by omega
    simp only [MemoryCache.incr, h, if_neg hcond]
    rw [lookupEntry_mapSet_self]
    norm_num [hone]
  · intro c now key h
    rcases h with h | ⟨e, h, hv⟩
    · simp [MemoryCache.decr, h]
    · by_cases hcond : e.expiresAt = 0 ∨ now ≤ e.expiresAt
      · simp [MemoryCache.decr, h, if_pos hcond, hv]
      · simp [MemoryCache.decr, h, if_neg hcond]
  · intro c now key
    constructor
    · cases h : lookupEntry c.entries key with
      | none => simp [MemoryCache.decr, h]
      | some e =>
        by_cases hcond : e.expiresAt = 0 ∨ now ≤ e.expiresAt
        · simp [MemoryCache.decr, h, if_pos hcond, le_max_left]
        · simp [MemoryCache.decr, h, if_neg hcond]
    · cases h : lookupEntry c.entries key with
      | none =>
        refine ⟨0, ?_⟩
        simp only [MemoryCache.decr, h]
        rw [lookupEntry_mapSet_self]
      | some e =>
        refine ⟨e.expiresAt, ?_⟩
        simp only [MemoryCache.decr, h]
        rw [lookupEntry_mapSet_self]

/-- C9 witness: the theorem instantiated on concrete inputs. -/
theorem counter_semantics_witness :
    (MemoryCache.incr ⟨10000, []⟩ 0 "k").1 = 1 ∧
    lookupEntry (MemoryCache.incr ⟨10000, []⟩ 0 "k").2.entries "k" = some ⟨"1", 0⟩ :=
  counter_semantics.1 ⟨10000, []⟩ 0 "k" rfl

lemma mapSet_append_of_none {β : Type} (m : List (String × β)) (k : String) (v : β)
    (h : lookupEntry m k = none) : mapSet m k v = m ++ [(k, v)] := by
  induction m with
  | nil => simp [mapSet]
  | cons p rest ih =>
    obtain ⟨a, b⟩ := p
    by_cases ha : a = k
    · simp [lookupEntry, ha] at h
    · simp only [lookupEntry, ha, if_neg, not_false_iff, if_false] at h
      simp [mapSet, ha, ih h]

lemma lookupEntry_mapDelete_none {β : Type} (m : List (String × β)) (k j : String)
    (h : lookupEntry m k = none) : lookupEntry (mapDelete m j) k = none := by
  induction m with
  | nil => simp [mapDelete, lookupEntry]
  | cons p rest ih =>
    obtain ⟨a, b⟩ := p
    by_cases ha : a = k
    · simp [lookupEntry, ha] at h
    · simp only [lookupEntry, ha, if_neg, not_false_iff, if_false] at h
      by_cases hj : a = j
      · simp [mapDelete, hj, h]
      · simp [mapDelete, lookupEntry, hj, ha, ih h]

lemma keysNonemptyList_mapSet {β : Type} (m : List (String × β)) (k : String) (v : β)
    (h : ∀ p ∈ m, p.1 ≠ "") (hk : k ≠ "") : ∀ p ∈ mapSet m k v, p.1 ≠ "" := by
  intro p hp
  rcases mem_mapSet m k v p hp with h1 | h1
  · exact h p h1
  · rw [h1]; exact hk

lemma keysNonemptyList_mapDelete {β : Type} (m : List (String × β)) (j : String)
    (h : ∀ p ∈ m, p.1 ≠ "") : ∀ p ∈ mapDelete m j, p.1 ≠ "" :=
  fun p hp => h p (mem_mapDelete m j p hp)

lemma set_preserves_capacity (c : MemoryCache) (now : Nat) (key value : String)
    (ttl : Option Nat) (hmax : 0 < c.maxSize) (hne : keysNonempty c) (hk : key ≠ "")
    (hlen : c.entries.length ≤ c.maxSize) :
    keysNonempty (c.set now key value ttl) ∧
      (c.set now key value ttl).entries.length ≤ c.maxSize := by
  obtain ⟨ms, ents⟩ := c
  simp only [keysNonempty] at hne ⊢
  simp only at hmax hlen
  unfold MemoryCache.set
  by_cases hcond : ents.length ≥ ms ∧ ¬ (mapHas ents key = true)
  · cases hents : ents with
    | nil =>
      subst hents
      simp at hcond
      omega
    | cons p t =>
      obtain ⟨fk, e0⟩ := p
      subst hents
      have hfk : fk ≠ "" := hne (fk, e0) (List.mem_cons_self _ _)
      have hhas : mapHas ((fk, e0) :: t) fk = true := by
        simp [mapHas, lookupEntry]
      have hnokey : lookupEntry ((fk, e0) :: t) key = none := by
        cases hl : lookupEntry ((fk, e0) :: t) key with
        | none => rfl
        | some z => exact absurd (by simp [mapHas, hl]) hcond.2
      have hnokey' : lookupEntry (mapDelete ((fk, e0) :: t) fk) key = none :=
        lookupEntry_mapDelete_none _ _ _ hnokey
      simp only [if_pos hcond, List.head?_cons, if_neg hfk]
      constructor
      · exact keysNonemptyList_mapSet _ _ _
          (keysNonemptyList_mapDelete _ _ hne) hk
      · rw [length_mapSet]
        have hdel := length_mapDelete_of_has ((fk, e0) :: t) fk hhas
        simp only [mapHas, hnokey', Option.isSome_none, Bool.false_eq_true, if_false]
        omega
  · simp only [if_neg hcond]
    constructor
    · exact keysNonemptyList_mapSet _ _ _ hne hk
    · rw [length_mapSet]
      rcases not_and_or.mp hcond with h1 | h1
      · have : ents.length < ms := by omega
        by_cases h2 : mapHas ents key <;> simp [h2] <;> omega
      · rw [not_not] at h1
        simp [h1]
        omega

lemma maxSize_applyOp (c : MemoryCache) (now : Nat) (op : CacheOp) :
    (applyOp c now op).maxSize = c.maxSize := by
  cases op with
  | opSet k v ttl => rfl
  | opSetex k ttl v => rfl
  | opIncr k => rfl
  | opDecr k => rfl
  | opExpire k ttl =>
    simp only [applyOp, MemoryCache.expire]
    split <;> rfl
  | opDel k =>
    simp only [applyOp, MemoryCache.del]
    split <;> rfl

lemma capacity_step (c : MemoryCache) (now : Nat) (op : CacheOp)
    (hctr : op.isCounter = false) (hk : op.key ≠ "") (hmax : 0 < c.maxSize)
    (hne : keysNonempty c) (hlen : c.entries.length ≤ c.maxSize) :
    keysNonempty (applyOp c now op) ∧
      (applyOp c now op).entries.length ≤ c.maxSize := by
  cases op with
  | opSet k v ttl => exact set_preserves_capacity c now k v ttl hmax hne hk hlen
  | opSetex k ttl v => exact set_preserves_capacity c now k v (some ttl) hmax hne hk hlen
  | opIncr k => simp [CacheOp.isCounter] at hctr
  | opDecr k => simp [CacheOp.isCounter] at hctr
  | opExpire k ttl =>
    simp only [applyOp, MemoryCache.expire]
    cases h : lookupEntry c.entries k with
    | none => exact ⟨hne, hlen⟩
    | some e =>
      have hhas : mapHas c.entries k = true := by simp [mapHas, h]
      constructor
      · exact keysNonemptyList_mapSet _ _ _ hne (by exact hk)
      · show (mapSet c.entries k ⟨e.value, now + ttl * 1000⟩).length ≤ c.maxSize
        rw [length_mapSet, if_pos hhas]
        exact hlen
  | opDel k =>
    simp only [applyOp, MemoryCache.del]
    by_cases h : mapHas c.entries k = true
    · simp only [if_pos h]
      constructor
      · exact keysNonemptyList_mapDelete _ _ hne
      · show (mapDelete c.entries k).length ≤ c.maxSize
        have := length_mapDelete_le c.entries k
        omega
    · simp only [h, if_false]
      exact ⟨hne, hlen⟩

lemma capacity_ops (ops : List (Nat × CacheOp)) (c : MemoryCache)
    (hops : ∀ p ∈ ops, (p.2).isCounter = false ∧ (p.2).key ≠ "")
    (hmax : 0 < c.maxSize) (hne : keysNonempty c)
    (hlen : c.entries.length ≤ c.maxSize) :
    keysNonempty (applyOps c ops) ∧
      (applyOps c ops).entries.length ≤ c.maxSize := by
  induction ops generalizing c with
  | nil => exact ⟨hne, hlen⟩
  | cons p rest ih =>
    obtain ⟨t, op⟩ := p
    have hop := hops (t, op) (List.mem_cons_self _ _)
    have hstep := capacity_step c t op hop.1 hop.2 hmax hne hlen
    have hms := maxSize_applyOp c t op
    have := ih (applyOp c t op)
      (fun q hq => hops q (List.mem_cons_of_mem _ hq))
      (by rw [hms]; exact hmax) hstep.1 (by rw [hms]; exact hstep.2)
    simpa [applyOps, hms] using this

/-! ### C6 — capacity bound and FIFO eviction -/

/-- C6 counterexample: the claim says no sequence of `set`/`setex`/`incr`/
`decr`/`expire`/`del` operations pushes the entry count above `maxSize`.  But
`incr` writes without the capacity check: with `maxSize = 2`, two `set`s
followed by `incr` on a fresh key leave 3 entries. -/
theorem capacity_incr_counterexample :
    (applyOps ⟨2, []⟩
      [(0, .opSet "a" "va" none), (0, .opSet "b" "vb" none), (0, .opIncr "c")]).entries.length = 3 ∧
    (applyOps ⟨2, []⟩
      [(0, .opSet "a" "va" none), (0, .opSet "b" "vb" none), (0, .opIncr "c")]).maxSize = 2 := by
  decide

/-- C6 (amended): for operations other than the counter updates and with
nonempty keys, a cache whose size is within a positive `maxSize` stays within
it (single steps and whole sequences); when `set` runs at capacity on a new
nonempty key and the oldest key is nonempty, exactly the single oldest-inserted
entry is dropped and the new entry appended; and the spec's `maxSize = 2`
example holds: inserting `a`, `b`, `c` evicts exactly `a`.  (`incr`/`decr`
bypass the capacity check, and an empty first key defeats the eviction guard,
hence the restrictions.) -/
theorem capacity_invariant_fifo :
    (∀ (c : MemoryCache) (now : Nat) (op : CacheOp),
        op.isCounter = false → op.key ≠ "" → 0 < c.maxSize →
        keysNonempty c → c.entries.length ≤ c.maxSize →
        keysNonempty (applyOp c now op) ∧
          (applyOp c now op).entries.length ≤ c.maxSize) ∧
    (∀ (ops : List (Nat × CacheOp)) (c : MemoryCache),
        (∀ p ∈ ops, (p.2).isCounter = false ∧ (p.2).key ≠ "") →
        0 < c.maxSize → keysNonempty c → c.entries.length ≤ c.maxSize →
        (applyOps c ops).entries.length ≤ c.maxSize) ∧
    (∀ (c : MemoryCache) (now : Nat) (key value k0 : String) (ttl : Option Nat)
        (e0 : CacheEntry) (t : List (String × CacheEntry)),
        c.entries = (k0, e0) :: t →
        c.entries.length ≥ c.maxSize → mapHas c.entries key = false →
        key ≠ "" → k0 ≠ "" →
        ∃ exp, (c.set now key value ttl).entries = t ++ [(key, ⟨value, exp⟩)]) ∧
    ((fifoExampleCache.get 5 "a").1 = none ∧
      (fifoExampleCache.get 5 "b").1 = some "vb" ∧
      (fifoExampleCache.get 5 "c").1 = some "vc" ∧
      fifoExampleCache.entries.length = 2) := by
  refine ⟨capacity_step, fun ops c h => fun h1 h2 h3 => (capacity_ops ops c h h1 h2 h3).2,
    ?_, by decide⟩
  intro c now key value k0 ttl e0 t hents hlen hhas hk hk0
  obtain ⟨ms, ents⟩ := c
  simp only at hents hlen hhas
  subst hents
  have hcond : ((k0, e0) :: t).length ≥ ms ∧ ¬ (mapHas ((k0, e0) :: t) key = true) :=
    ⟨hlen, by simp [hhas]⟩
  have hlkt : lookupEntry t key = none := by
    by_cases hke : k0 = key
    · exfalso
      have : mapHas ((k0, e0) :: t) key = true := by simp [mapHas, lookupEntry, hke]
      simp [this] at hhas
    · have : lookupEntry ((k0, e0) :: t) key = lookupEntry t key := by
        simp [lookupEntry, hke]
      cases hl : lookupEntry t key with
      | none => rfl
      | some z =>
        exfalso
        have : mapHas ((k0, e0) :: t) key = true := by
          simp [mapHas, this, hl]
        simp [this] at hhas
  have hdel : mapDelete ((k0, e0) :: t) k0 = t := by simp [mapDelete]
  have hres : ({ maxSize := ms, entries := (k0, e0) :: t } : MemoryCache).set now key value ttl =
      ⟨ms, t ++ [(key, ⟨value,
        match ttl with
        | some tt => if tt = 0 then 0 else now + tt * 1000
        | none => 0⟩)]⟩ := by
    unfold MemoryCache.set
    simp only [if_pos hcond, List.head?_cons, if_neg hk0]
    rw [hdel, mapSet_append_of_none _ _ _ hlkt]
  rw [hres]
  exact ⟨_, rfl⟩

/-- C6 witness: the single-step part of the theorem applied on a concrete
cache and operation. -/
theorem capacity_invariant_fifo_witness :
    keysNonempty (applyOp ⟨2, []⟩ 0 (.opSet "a" "v" none)) ∧
      (applyOp ⟨2, []⟩ 0 (.opSet "a" "v" none)).entries.length ≤
        (⟨2, []⟩ : MemoryCache).maxSize :=
  capacity_invariant_fifo.1 ⟨2, []⟩ 0 (.opSet "a" "v" none) rfl (by decide) (by decide)
    (by intro p hp; simp at hp) (by decide)

/-! ### C8 — token revocation fail-open -/

/-- C8 counterexample: the claim says a successful lookup reports `true`
exactly when a revocation entry is present and unexpired.  Blacklisting a
token with an empty owning user id stores a present, unexpired entry, yet
`!!result` coerces the empty string to `false`. -/
theorem blacklist_empty_userid_counterexample :
    (TokenBlacklistService.isTokenBlacklisted
      (TokenBlacklistService.blacklistToken ⟨10000, []⟩ 0 "t" "" 3600) 0 "t").1 = false ∧
    lookupEntry (TokenBlacklistService.blacklistToken ⟨10000, []⟩ 0 "t" "" 3600).entries
      (blacklistKey "t") = some ⟨"", 3600000⟩ ∧
    isExpired ⟨"", 3600000⟩ 0 = false := by
  decide

/-- C8 (amended): a backend error during the lookup is caught and reported as
not blacklisted (fail open); a successful lookup reports `true` exactly when a
revocation entry for the token is present, unexpired and stores a nonempty
owning user id. -/
theorem token_revocation_fail_open :
    (∀ e : CacheError, isTokenBlacklistedOf (.error e) = false) ∧
    (∀ (c : MemoryCache) (now : Nat) (token : String),
        (TokenBlacklistService.isTokenBlacklisted c now token).1 = true ↔
          ∃ en, lookupEntry c.entries (blacklistKey token) = some en ∧
            isExpired en now = false ∧ en.value ≠ "") := by
  constructor
  · intro e; rfl
  · intro c now token
    unfold TokenBlacklistService.isTokenBlacklisted MemoryCache.get
    cases h : lookupEntry c.entries (blacklistKey token) with
    | none => simp [isTokenBlacklistedOf]
    | some en =>
      by_cases hx : isExpired en now
      · simp [hx, isTokenBlacklistedOf]
      · simp [hx, isTokenBlacklistedOf]

/-- C8 witness: a token blacklisted with a nonempty user id reads back as
blacklisted. -/
theorem token_revocation_fail_open_witness :
    (TokenBlacklistService.isTokenBlacklisted
      (TokenBlacklistService.blacklistToken ⟨10000, []⟩ 0 "t" "u1" 60) 0 "t").1 = true :=
  (token_revocation_fail_open.2 _ 0 "t").mpr ⟨⟨"u1", 3600000⟩, by decide, by decide, by decide⟩

/-! ### Helper lemmas for the rate limiter -/

lemma mget_absent (c : MemoryCache) (now : Nat) (key : String)
    (h : lookupEntry c.entries key = none) : c.get now key = (none, c) := by
  unfold MemoryCache.get
  rw [h]

lemma mget_live (c : MemoryCache) (now : Nat) (key : String) (e : CacheEntry)
    (h : lookupEntry c.entries key = some e) (hx : isExpired e now = false) :
    c.get now key = (some e.value, c) := by
  unfold MemoryCache.get
  rw [h]
  simp [hx]

lemma lookup_after_setex (c : MemoryCache) (now : Nat) (key v : String) (ttl : Nat)
    (httl : ttl ≠ 0) :
    lookupEntry (c.setex now key ttl v).entries key = some ⟨v, now + ttl * 1000⟩ := by
  unfold MemoryCache.setex MemoryCache.set
  simp only [httl, if_neg, not_false_iff]
  rw [lookupEntry_mapSet_self]

lemma unexpired_of_le (e : CacheEntry) (now : Nat) (h : now ≤ e.expiresAt) :
    isExpired e now = false := by
  simp [isExpired]
  omega

lemma canActivate_first (c : MemoryCache) (now : Nat) (limits : RateLimitPolicy)
    (id ep : String) (h : lookupEntry c.entries (rateLimitKey id ep) = none)
    (hmax : 0 < limits.max) :
    RateLimitGuard.canActivate c now limits id ep =
      (.admitted, c.setex now (rateLimitKey id ep) limits.window "1") := by
  simp only [RateLimitGuard.canActivate, mget_absent c now _ h]
  have hno : ¬ ((0 : Int) ≥ (limits.max : Int)) := by
    push_neg
    exact_mod_cast hmax
  simp [hno]

lemma canActivate_admit (c : MemoryCache) (now : Nat) (limits : RateLimitPolicy)
    (id ep v : String) (exp : Nat) (n : Int)
    (h : lookupEntry c.entries (rateLimitKey id ep) = some ⟨v, exp⟩)
    (hlive : now ≤ exp) (hv : v ≠ "") (hp : parseIntJs v = some n)
    (hn0 : n ≠ 0) (hlt : n < (limits.max : Int)) :
    RateLimitGuard.canActivate c now limits id ep =
      (.admitted, ⟨c.maxSize, mapSet c.entries (rateLimitKey id ep)
        ⟨intToString (n + 1), exp⟩⟩) := by
  have hg := mget_live c now (rateLimitKey id ep) ⟨v, exp⟩ h (unexpired_of_le _ _ hlive)
  have hsome : (if v = "" then some (0 : Int) else parseIntJs v) = some n := by
    simp [hv, hp]
  have hno : ¬ (n ≥ (limits.max : Int)) := by omega
  simp only [RateLimitGuard.canActivate, hg, hsome]
  rw [if_neg (by simp [hno])]
  rw [if_neg (by simp [hn0])]
  unfold MemoryCache.incr
  simp only [h]
  rw [if_pos (Or.inr hlive : (⟨v, exp⟩ : CacheEntry).expiresAt = 0 ∨
    now ≤ (⟨v, exp⟩ : CacheEntry).expiresAt)]
  simp [parseIntOr0, hp]

lemma canActivate_reject (c : MemoryCache) (now : Nat) (limits : RateLimitPolicy)
    (id ep v : String) (exp : Nat) (n : Int)
    (h : lookupEntry c.entries (rateLimitKey id ep) = some ⟨v, exp⟩)
    (hlive : now ≤ exp) (hv : v ≠ "") (hp : parseIntJs v = some n)
    (hge : n ≥ (limits.max : Int)) :
    RateLimitGuard.canActivate c now limits id ep =
      (.rejected ((limits.window : Int) - getTTLClamped c now (rateLimitKey id ep))
        limits.max 0
        ((now : Int) + ((limits.window : Int) - getTTLClamped c now (rateLimitKey id ep)) * 1000),
       c) := by
  simp only [RateLimitGuard.canActivate, mget_live c now _ _ h (unexpired_of_le _ _ hlive)]
  simp [hv, hp, hge]

lemma getTTLClamped_bounds (c : MemoryCache) (now : Nat) (key v : String) (exp : Nat)
    (h : lookupEntry c.entries key = some ⟨v, exp⟩) (h0 : exp ≠ 0)
    (hle : (exp : Int) - (now : Int) ≤ 60000) :
    0 ≤ getTTLClamped c now key ∧ getTTLClamped c now key ≤ 60 := by
  unfold getTTLClamped MemoryCache.ttl
  rw [h]
  simp only [h0, if_neg, not_false_iff]
  have hb := fdiv1000_bounds ((exp : Int) - (now : Int))
  by_cases hq : ((exp : Int) - (now : Int)).fdiv 1000 > 0
  · rw [if_pos hq]
    simp only [if_pos hq]
    omega
  · rw [if_neg hq]
    norm_num

/-! ### C2 — rate limiter admission boundary -/

/-- C2: under policy `max = 5`, `window = 60`, for a single
`(identifier, endpoint)` with no pre-existing counter, six requests at
non-decreasing times within the window admit the first five and reject the
sixth; the rejection carries `retryAfter = window - remainingTTL` in `[0, 60]`
and `remaining = 0`, and happens before any increment (the counter still reads
`"5"` afterwards). -/
theorem rate_limit_admission (c0 : MemoryCache) (id ep : String)
    (t0 t1 t2 t3 t4 t5 : Nat)
    (habs : lookupEntry c0.entries (rateLimitKey id ep) = none)
    (h01 : t0 ≤ t1) (h12 : t1 ≤ t2) (h23 : t2 ≤ t3) (h34 : t3 ≤ t4) (h45 : t4 ≤ t5)
    (hwin : t5 ≤ t0 + 60000) :
    ∃ retryAfter resetTime,
      (runRateRequests c0 ⟨5, 60⟩ id ep [t0, t1, t2, t3, t4, t5]).1 =
        [.admitted, .admitted, .admitted, .admitted, .admitted,
          .rejected retryAfter 5 0 resetTime] ∧
      0 ≤ retryAfter ∧ retryAfter ≤ 60 ∧
      lookupEntry (runRateRequests c0 ⟨5, 60⟩ id ep [t0, t1, t2, t3, t4, t5]).2.entries
        (rateLimitKey id ep) = some ⟨"5", t0 + 60 * 1000⟩ := by
  have hp1 : parseIntJs "1" = some 1 := by decide
  have hp2 : parseIntJs "2" = some 2 := by decide
  have hp3 : parseIntJs "3" = some 3 := by decide
  have hp4 : parseIntJs "4" = some 4 := by decide
  have hp5 : parseIntJs "5" = some 5 := by decide
  have e1 : RateLimitGuard.canActivate c0 t0 ⟨5, 60⟩ id ep =
      (.admitted, c0.setex t0 (rateLimitKey id ep) 60 "1") :=
    canActivate_first c0 t0 ⟨5, 60⟩ id ep habs (by norm_num)
  have h1 := lookup_after_setex c0 t0 (rateLimitKey id ep) "1" 60 (by norm_num)
  generalize hC1 : c0.setex t0 (rateLimitKey id ep) 60 "1" = c1 at e1 h1
  have e2 : RateLimitGuard.canActivate c1 t1 ⟨5, 60⟩ id ep =
      (.admitted, ⟨c1.maxSize,
        mapSet c1.entries (rateLimitKey id ep) ⟨"2", t0 + 60 * 1000⟩⟩) :=
    canActivate_admit c1 t1 ⟨5, 60⟩ id ep "1" (t0 + 60 * 1000) 1 h1 (by omega)
      (by decide) hp1 (by decide) (by decide)
  generalize hC2 : (⟨c1.maxSize,
    mapSet c1.entries (rateLimitKey id ep) ⟨"2", t0 + 60 * 1000⟩⟩ : MemoryCache) = c2 at e2
  have h2 : lookupEntry c2.entries (rateLimitKey id ep) = some ⟨"2", t0 + 60 * 1000⟩ := by
    rw [← hC2]; exact lookupEntry_mapSet_self c1.entries _ _
  have e3 : RateLimitGuard.canActivate c2 t2 ⟨5, 60⟩ id ep =
      (.admitted, ⟨c2.maxSize,
        mapSet c2.entries (rateLimitKey id ep) ⟨"3", t0 + 60 * 1000⟩⟩) :=
    canActivate_admit c2 t2 ⟨5, 60⟩ id ep "2" (t0 + 60 * 1000) 2 h2 (by omega)
      (by decide) hp2 (by decide) (by decide)
  generalize hC3 : (⟨c2.maxSize,
    mapSet c2.entries (rateLimitKey id ep) ⟨"3", t0 + 60 * 1000⟩⟩ : MemoryCache) = c3 at e3
  have h3 : lookupEntry c3.entries (rateLimitKey id ep) = some ⟨"3", t0 + 60 * 1000⟩ := by
    rw [← hC3]; exact lookupEntry_mapSet_self c2.entries _ _
  have e4 : RateLimitGuard.canActivate c3 t3 ⟨5, 60⟩ id ep =
      (.admitted, ⟨c3.maxSize,
        mapSet c3.entries (rateLimitKey id ep) ⟨"4", t0 + 60 * 1000⟩⟩) :=
    canActivate_admit c3 t3 ⟨5, 60⟩ id ep "3" (t0 + 60 * 1000) 3 h3 (by omega)
      (by decide) hp3 (by decide) (by decide)
  generalize hC4 : (⟨c3.maxSize,
    mapSet c3.entries (rateLimitKey id ep) ⟨"4", t0 + 60 * 1000⟩⟩ : MemoryCache) = c4 at e4
  have h4 : lookupEntry c4.entries (rateLimitKey id ep) = some ⟨"4", t0 + 60 * 1000⟩ := by
    rw [← hC4]; exact lookupEntry_mapSet_self c3.entries _ _
  have e5 : RateLimitGuard.canActivate c4 t4 ⟨5, 60⟩ id ep =
      (.admitted, ⟨c4.maxSize,
        mapSet c4.entries (rateLimitKey id ep) ⟨"5", t0 + 60 * 1000⟩⟩) :=
    canActivate_admit c4 t4 ⟨5, 60⟩ id ep "4" (t0 + 60 * 1000) 4 h4 (by omega)
      (by decide) hp4 (by decide) (by decide)
  generalize hC5 : (⟨c4.maxSize,
    mapSet c4.entries (rateLimitKey id ep) ⟨"5", t0 + 60 * 1000⟩⟩ : MemoryCache) = c5 at e5
  have h5 : lookupEntry c5.entries (rateLimitKey id ep) = some ⟨"5", t0 + 60 * 1000⟩ := by
    rw [← hC5]; exact lookupEntry_mapSet_self c4.entries _ _
  have e6 : RateLimitGuard.canActivate c5 t5 ⟨5, 60⟩ id ep =
      (.rejected ((60 : Int) - getTTLClamped c5 t5 (rateLimitKey id ep)) 5 0
        ((t5 : Int) + ((60 : Int) - getTTLClamped c5 t5 (rateLimitKey id ep)) * 1000),
       c5) :=
    canActivate_reject c5 t5 ⟨5, 60⟩ id ep "5" (t0 + 60 * 1000) 5 h5 (by omega)
      (by decide) hp5 (by decide)
  have hbounds := getTTLClamped_bounds c5 t5 (rateLimitKey id ep) "5" (t0 + 60 * 1000) h5
    (by omega) (by push_cast; omega)
  have hrun : runRateRequests c0 ⟨5, 60⟩ id ep [t0, t1, t2, t3, t4, t5] =
      ([.admitted, .admitted, .admitted, .admitted, .admitted,
        .rejected ((60 : Int) - getTTLClamped c5 t5 (rateLimitKey id ep)) 5 0
          ((t5 : Int) + ((60 : Int) - getTTLClamped c5 t5 (rateLimitKey id ep)) * 1000)],
       c5) := by
    simp only [runRateRequests, e1, e2, e3, e4, e5, e6]
  refine ⟨(60 : Int) - getTTLClamped c5 t5 (rateLimitKey id ep),
    (t5 : Int) + ((60 : Int) - getTTLClamped c5 t5 (rateLimitKey id ep)) * 1000,
    ?_, ?_, ?_, ?_⟩
  · rw [hrun]
  · omega
  · omega
  · rw [hrun]; exact h5

/-! ### Helper lemmas for the cache facade -/

lemma effectiveTTL_ne_zero (opts : CacheOptions) : effectiveTTL opts ≠ 0 := by
  unfold effectiveTTL CacheService.defaultTTL
  cases opts.ttl with
  | none => norm_num
  | some t =>
    by_cases h : t = 0
    · simp [h]
    · simp [h]

lemma facadeGet_absent {α : Type} (J : JsonModel α) (c : MemoryCache) (now : Nat)
    (key : String) (opts : CacheOptions)
    (h : lookupEntry c.entries (buildKey key opts.pfx) = none) :
    CacheService.get J c now key opts = (J.jnull, c) := by
  simp only [CacheService.get, mget_absent c now _ h]

lemma facadeGet_of_entry {α : Type} (J : JsonModel α) (c : MemoryCache) (now : Nat)
    (key : String) (opts : CacheOptions) (en : CacheEntry)
    (h : lookupEntry c.entries (buildKey key opts.pfx) = some en)
    (hx : isExpired en now = false) :
    CacheService.get J c now key opts =
      (if en.value = "" then J.jnull
       else match J.parse en.value with
            | some v => v
            | none => J.jnull, c) := by
  simp only [CacheService.get, mget_live c now _ en h hx]
  by_cases he : en.value = ""
  · simp [he]
  · cases hp : J.parse en.value <;> simp [he, hp]

lemma facadeGet_parsed {α : Type} (J : JsonModel α) (c : MemoryCache) (now : Nat)
    (key : String) (opts : CacheOptions) (en : CacheEntry) (v : α)
    (h : lookupEntry c.entries (buildKey key opts.pfx) = some en)
    (hx : isExpired en now = false) (hne : en.value ≠ "")
    (hp : J.parse en.value = some v) :
    CacheService.get J c now key opts = (v, c) := by
  rw [facadeGet_of_entry J c now key opts en h hx]
  simp [hne, hp]

/-! ### C1 — `getOrSet` cache-aside semantics -/

/-- C1 counterexample: the claim says a populated key never invokes the
factory.  A key populated with the string `"null"` (the serialized form of a
cached `null`) is present and unexpired in the TTL cache, yet `getOrSet`
invokes the factory (invocation count 1, not 0). -/
theorem getOrSet_populated_null_counterexample :
    (CacheService.getOrSet jvalModel ⟨10000, [("k", ⟨"null", 0⟩)]⟩ 0 "k"
      (fun _ => (.ok (JVal.jbool true) : Except Unit JVal)) ⟨none, none⟩).1.2 = 1 ∧
    lookupEntry (⟨10000, [("k", ⟨"null", 0⟩)]⟩ : MemoryCache).entries
      (buildKey "k" none) = some ⟨"null", 0⟩ ∧
    isExpired ⟨"null", 0⟩ 0 = false := by
  decide

/-- C1 (amended): on a key populated with a nonempty string that deserializes
to a non-`null` value, `getOrSet` returns that value without invoking the
factory; on a miss of the facade's `get` (key absent — or holding an empty,
unparseable or `null`-deserializing string), the factory runs once, its result
is stored under the configured TTL, and a facade `get` any time within the TTL
window returns that result. -/
theorem getOrSet_cache_aside :
    (∀ (α : Type) [DecidableEq α] (ε : Type) (J : JsonModel α)
        (c : MemoryCache) (now : Nat) (key : String) (factory : Nat → Except ε α)
        (opts : CacheOptions) (en : CacheEntry) (v : α),
        lookupEntry c.entries (buildKey key opts.pfx) = some en →
        isExpired en now = false → en.value ≠ "" →
        J.parse en.value = some v → v ≠ J.jnull →
        CacheService.getOrSet J c now key factory opts = ((.ok v, 0), c)) ∧
    (∀ (α : Type) [DecidableEq α] (ε : Type) (J : JsonModel α)
        (c : MemoryCache) (now : Nat) (key : String) (factory : Nat → Except ε α)
        (opts : CacheOptions) (r : α),
        (CacheService.get J c now key opts).1 = J.jnull →
        factory 0 = .ok r →
        CacheService.getOrSet J c now key factory opts =
          ((.ok r, 1),
            CacheService.set J (CacheService.get J c now key opts).2 now key r opts) ∧
        lookupEntry
          (CacheService.set J (CacheService.get J c now key opts).2 now key r opts).entries
          (buildKey key opts.pfx) =
            some ⟨J.stringify r, now + effectiveTTL opts * 1000⟩ ∧
        (∀ now' : Nat, now' ≤ now + effectiveTTL opts * 1000 →
          (CacheService.get J
            (CacheService.set J (CacheService.get J c now key opts).2 now key r opts)
            now' key opts).1 = r)) := by
  constructor
  · intro α _inst ε J c now key factory opts en v h hx hne hp hv
    unfold CacheService.getOrSet
    rw [facadeGet_parsed J c now key opts en v h hx hne hp]
    simp [hv]
  · intro α _inst ε J c now key factory opts r hmiss hf
    have hset : lookupEntry
        (CacheService.set J (CacheService.get J c now key opts).2 now key r opts).entries
        (buildKey key opts.pfx) =
          some ⟨J.stringify r, now + effectiveTTL opts * 1000⟩ :=
      lookup_after_setex _ now _ (J.stringify r) _ (effectiveTTL_ne_zero opts)
    refine ⟨?_, hset, ?_⟩
    · rcases hG : CacheService.get J c now key opts with ⟨cached, c₁⟩
      rw [hG] at hmiss
      simp only at hmiss
      unfold CacheService.getOrSet
      rw [hG, hmiss]
      simp [hf]
    · intro now' hnow'
      rw [facadeGet_parsed J _ now' key opts _ r hset (unexpired_of_le _ _ hnow')
        (J.stringify_nonempty r) (J.roundtrip r)]

/-- C1 witness: the miss branch of the theorem on a concrete empty cache. -/
theorem getOrSet_cache_aside_witness :
    CacheService.getOrSet jvalModel ⟨10000, []⟩ 0 "k"
      (fun _ => (.ok (JVal.jbool true) : Except Unit JVal)) ⟨none, none⟩ =
      ((.ok (JVal.jbool true), 1),
        CacheService.set jvalModel ⟨10000, []⟩ 0 "k" (JVal.jbool true) ⟨none, none⟩) :=
  (getOrSet_cache_aside.2 JVal Unit jvalModel ⟨10000, []⟩ 0 "k"
    (fun _ => .ok (.jbool true)) ⟨none, none⟩ (.jbool true) (by decide) rfl).1

/-! ### C7 — factory error propagation through `getOrSet` -/

/-- C7 counterexample: the claim says a factory error on a miss propagates
unmodified and the factory is not invoked again.  With a factory that rejects
on its first invocation and succeeds on its second, the caller receives the
second invocation's success (no error at all) and the invocation count is 2. -/
theorem getOrSet_factory_error_counterexample :
    (CacheService.getOrSet jvalModel ⟨10000, []⟩ 0 "k"
      (fun i => if i = 0 then (.error "boom" : Except String JVal)
                else .ok (.jbool true)) ⟨none, none⟩).1 =
      (.ok (JVal.jbool true), 2) := by
  decide

/-- C7 (amended): on a miss, when the factory's first invocation fails, the
facade's catch block invokes the factory a second time without caching, and
the second invocation's outcome — value or error — is what reaches the caller;
the cache state stays as the initial read left it. -/
theorem getOrSet_factory_error :
    ∀ (α : Type) [DecidableEq α] (ε : Type) (J : JsonModel α) (c : MemoryCache)
      (now : Nat) (key : String) (factory : Nat → Except ε α) (opts : CacheOptions)
      (e : ε),
      (CacheService.get J c now key opts).1 = J.jnull →
      factory 0 = .error e →
      CacheService.getOrSet J c now key factory opts =
        ((factory 1, 2), (CacheService.get J c now key opts).2) := by
  intro α _inst ε J c now key factory opts e hmiss hf
  rcases hG : CacheService.get J c now key opts with ⟨cached, c₁⟩
  rw [hG] at hmiss
  simp only at hmiss
  unfold CacheService.getOrSet
  rw [hG, hmiss]
  cases h1 : factory 1 <;> simp [hf, h1]

/-- C7 witness: a factory that always rejects leads to the second error
propagating with two invocations and no caching. -/
theorem getOrSet_factory_error_witness :
    CacheService.getOrSet jvalModel ⟨10000, []⟩ 0 "k"
      (fun _ => (.error "boom" : Except String JVal)) ⟨none, none⟩ =
      ((.error "boom", 2), ⟨10000, []⟩) :=
  getOrSet_factory_error JVal String jvalModel ⟨10000, []⟩ 0 "k"
    (fun _ => .error "boom") ⟨none, none⟩ "boom" (by decide) rfl

/-! ### C10 — null-like values are never effectively cached -/

/-- C10: a key whose stored string is empty or deserializes to `null` is
treated by the facade as a miss although it is populated in the TTL cache:
`get` returns `null`, `getOrSet` invokes the factory, and when the factory
returns `null` the re-stored string again deserializes to `null`, so every
subsequent call misses again. -/
theorem facade_null_never_cached :
    ∀ (α : Type) [DecidableEq α] (ε : Type) (J : JsonModel α) (c : MemoryCache)
      (now : Nat) (key : String) (opts : CacheOptions) (en : CacheEntry),
      lookupEntry c.entries (buildKey key opts.pfx) = some en →
      isExpired en now = false →
      (en.value = "" ∨ J.parse en.value = some J.jnull) →
      (CacheService.get J c now key opts).1 = J.jnull ∧
      (∀ factory : Nat → Except ε α,
        1 ≤ (CacheService.getOrSet J c now key factory opts).1.2) ∧
      (∀ factory : Nat → Except ε α, factory 0 = .ok J.jnull →
        lookupEntry (CacheService.getOrSet J c now key factory opts).2.entries
          (buildKey key opts.pfx) =
            some ⟨J.stringify J.jnull, now + effectiveTTL opts * 1000⟩ ∧
        J.parse (J.stringify J.jnull) = some J.jnull) := by
  intro α _inst ε J c now key opts en h hx hnull
  have hmiss : CacheService.get J c now key opts = (J.jnull, c) := by
    rw [facadeGet_of_entry J c now key opts en h hx]
    rcases hnull with h1 | h1
    · simp [h1]
    · by_cases he : en.value = ""
      · simp [he]
      · simp [he, h1]
  refine ⟨by rw [hmiss], ?_, ?_⟩
  · intro factory
    unfold CacheService.getOrSet
    rw [hmiss]
    cases h0 : factory 0 with
    | ok v => simp [h0]
    | error e => cases h1 : factory 1 <;> simp [h0, h1]
  · intro factory hf
    unfold CacheService.getOrSet
    rw [hmiss]
    simp only [hf]
    constructor
    · simp only [ne_eq, not_true_eq_false, if_false]
      exact lookup_after_setex _ now _ _ _ (effectiveTTL_ne_zero opts)
    · exact J.roundtrip J.jnull

/-- C10 witness: the theorem on a cache whose entry for the key is the
serialized `null`. -/
theorem facade_null_never_cached_witness :
    (CacheService.get jvalModel ⟨10000, [("k", ⟨"null", 0⟩)]⟩ 0 "k" ⟨none, none⟩).1 =
      jvalModel.jnull ∧
    (∀ factory : Nat → Except Unit JVal,
      1 ≤ (CacheService.getOrSet jvalModel ⟨10000, [("k", ⟨"null", 0⟩)]⟩ 0 "k"
        factory ⟨none, none⟩).1.2) ∧
    (∀ factory : Nat → Except Unit JVal, factory 0 = .ok jvalModel.jnull →
      lookupEntry (CacheService.getOrSet jvalModel ⟨10000, [("k", ⟨"null", 0⟩)]⟩ 0 "k"
          factory ⟨none, none⟩).2.entries (buildKey "k" none) =
        some ⟨jvalModel.stringify jvalModel.jnull, 0 + effectiveTTL ⟨none, none⟩ * 1000⟩ ∧
      jvalModel.parse (jvalModel.stringify jvalModel.jnull) = some jvalModel.jnull) :=
  facade_null_never_cached JVal Unit jvalModel ⟨10000, [("k", ⟨"null", 0⟩)]⟩ 0 "k"
    ⟨none, none⟩ ⟨"null", 0⟩ (by decide) (by decide) (by decide)

/-! ### Helper lemmas for the leaderboard -/

lemma mem_assignRanks : ∀ (l : List LeaderboardEntry) (i : Nat) (b : LeaderboardEntry),
    b ∈ assignRanks i l → ∃ b0 ∈ l, ∃ j, b = { b0 with rank := j } := by
  intro l
  induction l with
  | nil => intro i b hb; simp [assignRanks] at hb
  | cons e es ih =>
    intro i b hb
    simp only [assignRanks] at hb
    rcases List.mem_cons.mp hb with h1 | h1
    · exact ⟨e, List.mem_cons_self _ _, i, h1⟩
    · obtain ⟨b0, hb0, j, hj⟩ := ih (i + 1) b h1
      exact ⟨b0, List.mem_cons_of_mem _ hb0, j, hj⟩

lemma assignRanks_mem_of_mem : ∀ (l : List LeaderboardEntry) (b0 : LeaderboardEntry),
    b0 ∈ l → ∀ i : Nat, ∃ j, { b0 with rank := j } ∈ assignRanks i l := by
  intro l
  induction l with
  | nil => intro b0 hb0; simp at hb0
  | cons e es ih =>
    intro b0 hb0 i
    rcases List.mem_cons.mp hb0 with h1 | h1
    · subst h1
      exact ⟨i, List.mem_cons_self _ _⟩
    · obtain ⟨j, hj⟩ := ih b0 h1 (i + 1)
      exact ⟨j, List.mem_cons_of_mem _ hj⟩

lemma assignRanks_pairwise : ∀ (l : List LeaderboardEntry) (i : Nat),
    l.Pairwise entryBefore → (assignRanks i l).Pairwise entryBefore := by
  intro l
  induction l with
  | nil => intro i h; simp [assignRanks]
  | cons e es ih =>
    intro i h
    rw [List.pairwise_cons] at h
    simp only [assignRanks]
    rw [List.pairwise_cons]
    refine ⟨?_, ih (i + 1) h.2⟩
    intro b hb
    obtain ⟨b0, hb0, j, rfl⟩ := mem_assignRanks es (i + 1) b hb
    exact h.1 b0 hb0

lemma assignRanks_rank_get : ∀ (l : List LeaderboardEntry) (i j : Nat)
    (hj : j < (assignRanks i l).length),
    ((assignRanks i l).get ⟨j, hj⟩).rank = i + j := by
  intro l
  induction l with
  | nil => intro i j hj; simp [assignRanks] at hj
  | cons e es ih =>
    intro i j hj
    cases j with
    | zero => simp [assignRanks]
    | succ j' =>
      simp only [assignRanks, List.get_cons_succ]
      rw [ih (i + 1) j']
      omega

lemma filterMap_fst_pairs : ∀ (xs : List Submission),
    List.filterMap (fun r : Option Submission × Option Badge => r.1)
      ((xs.map some).flatMap (fun s => [(s, none)])) = xs := by
  intro xs
  induction xs with
  | nil => simp
  | cons s ss ihs => simp only [List.map_cons, List.flatMap_cons, List.filterMap_cons]; simp [ihs]

lemma subRows_of_no_badges (subs : List Submission) :
    (joinRows subs []).filterMap (fun r => r.1) = subs := by
  unfold joinRows
  by_cases h : subs.isEmpty
  · rw [List.isEmpty_iff] at h
    subst h
    simp
  · simp only [h, if_false, List.isEmpty_nil, if_true]
    exact filterMap_fst_pairs subs

/-! ### C3 — leaderboard ordering and rank assignment -/

/-- C3: every computed leaderboard is sorted by `totalScore` descending with
ties broken by `approvedSubmissions` then `averageScore` descending, and each
entry's rank is its 1-based position (hence strictly increasing, never
shared); on the spec's example, `U2` (3 approved) ranks strictly above `U1`
(2 approved) despite the `totalScore` tie, with ranks 1 and 2. -/
theorem leaderboard_order_and_ranks :
    (∀ (db : Db) (now : Int) (tr : Option TimeRange),
        (calculateOverallLeaderboard db now tr).Pairwise entryBefore ∧
        (∀ (j : Nat) (hj : j < (calculateOverallLeaderboard db now tr).length),
          ((calculateOverallLeaderboard db now tr).get ⟨j, hj⟩).rank = j + 1) ∧
        (∀ (j k : Nat) (hj : j < (calculateOverallLeaderboard db now tr).length)
            (hk : k < (calculateOverallLeaderboard db now tr).length), j < k →
          ((calculateOverallLeaderboard db now tr).get ⟨j, hj⟩).rank <
            ((calculateOverallLeaderboard db now tr).get ⟨k, hk⟩).rank)) ∧
    ((calculateOverallLeaderboard exampleDb 0 none).map (fun e => (e.userId, e.rank)) =
      [("u2", 1), ("u1", 2)]) := by
  constructor
  · intro db now tr
    have hdef : calculateOverallLeaderboard db now tr =
        assignRanks 1 (List.insertionSort entryBefore
          ((db.users.filter (fun u => u.status == .active)).map
            (aggregateFor db (getDateFilter now tr)))) := rfl
    refine ⟨?_, ?_, ?_⟩
    · rw [hdef]
      exact assignRanks_pairwise _ 1 (List.sorted_insertionSort entryBefore _)
    · rw [hdef]
      intro j hj
      rw [assignRanks_rank_get]
      omega
    · rw [hdef]
      intro j k hj hk hjk
      rw [assignRanks_rank_get, assignRanks_rank_get]
      omega
  · decide

/-- C3 witness: the rank-assignment part of the theorem on the example
data-source state. -/
theorem leaderboard_order_and_ranks_witness :
    ∀ (hj : 0 < (calculateOverallLeaderboard exampleDb 0 none).length),
      ((calculateOverallLeaderboard exampleDb 0 none).get ⟨0, hj⟩).rank = 0 + 1 :=
  fun hj => (leaderboard_order_and_ranks.1 exampleDb 0 none).2.1 0 hj

/-! ### C4 — leaderboard aggregation per user -/

/-- C4 counterexample: the claim says `totalScore` sums only approved
submissions' scores.  A user whose single submission is rejected with score 50
gets `totalScore = 50` from the code, while the approved-only sum is 0. -/
theorem leaderboard_totalScore_counterexample :
    ((calculateOverallLeaderboard rejectedScoreDb 0 none).map
      (fun e => (e.userId, e.totalScore))) = [("u1", 50)] ∧
    ((rejectedScoreDb.submissions.filter
        (fun s => s.userId == "u1" && s.status == .approved)).map
      (fun s => s.score.getD 0)).sum = 0 := by
  decide

/-- C4 (amended): for every active user with no badge row sharing the user's
id (the badge join key `ON u.id = b.id` fans the counts out otherwise), the
computed entry satisfies: `totalScore` = sum of the scores of ALL of the
user's submissions in the time filter regardless of status (absent scores
contribute 0), `totalSubmissions` = count of all such submissions,
`approvedSubmissions` = count of the approved ones, and `averageScore` = mean
of the non-absent scores of approved submissions (0 when there are none). -/
theorem leaderboard_aggregation :
    ∀ (db : Db) (now : Int) (tr : Option TimeRange) (u : User),
      u ∈ db.users → u.status = .active → badgesOf db u = [] →
      ∃ e ∈ calculateOverallLeaderboard db now tr,
        e.userId = u.id ∧
        e.totalScore =
          ((submissionsOf db (getDateFilter now tr) u).map
            (fun s => s.score.getD 0)).sum ∧
        e.totalSubmissions = (submissionsOf db (getDateFilter now tr) u).length ∧
        e.approvedSubmissions =
          ((submissionsOf db (getDateFilter now tr) u).filter
            (fun s => s.status == .approved)).length ∧
        e.averageScore =
          (if (approvedScoresOf db (getDateFilter now tr) u).length = 0 then 0
           else ((approvedScoresOf db (getDateFilter now tr) u).map
              (fun n => (n : Rat))).sum /
             ((approvedScoresOf db (getDateFilter now tr) u).length : Rat)) := by
  intro db now tr u hu hact hbad
  have hmem1 : u ∈ db.users.filter (fun v => v.status == .active) :=
    List.mem_filter.mpr ⟨hu, by rw [hact]; decide⟩
  have hmem2 : aggregateFor db (getDateFilter now tr) u ∈
      (db.users.filter (fun v => v.status == .active)).map
        (aggregateFor db (getDateFilter now tr)) :=
    List.mem_map_of_mem _ hmem1
  have hmem3 : aggregateFor db (getDateFilter now tr) u ∈
      List.insertionSort entryBefore
        ((db.users.filter (fun v => v.status == .active)).map
          (aggregateFor db (getDateFilter now tr))) :=
    ((List.perm_insertionSort entryBefore _).mem_iff).mpr hmem2
  obtain ⟨j, hj⟩ := assignRanks_mem_of_mem _ _ hmem3 1
  refine ⟨{ aggregateFor db (getDateFilter now tr) u with rank := j }, hj,
    rfl, ?_, ?_, ?_, ?_⟩
  · show (aggregateFor db (getDateFilter now tr) u).totalScore = _
    simp only [aggregateFor, hbad, subRows_of_no_badges]
  · show (aggregateFor db (getDateFilter now tr) u).totalSubmissions = _
    simp only [aggregateFor, hbad, subRows_of_no_badges]
  · show (aggregateFor db (getDateFilter now tr) u).approvedSubmissions = _
    simp only [aggregateFor, hbad, subRows_of_no_badges]
  · show (aggregateFor db (getDateFilter now tr) u).averageScore = _
    simp only [aggregateFor, hbad, subRows_of_no_badges, approvedScoresOf]

/-- C4 witness: the theorem instantiated on the example data-source state for
its second user. -/
theorem leaderboard_aggregation_witness :
    ∃ e ∈ calculateOverallLeaderboard exampleDb 0 none,
      e.userId = exampleU2.id ∧
      e.totalScore =
        ((submissionsOf exampleDb (getDateFilter 0 none) exampleU2).map
          (fun s => s.score.getD 0)).sum ∧
      e.totalSubmissions = (submissionsOf exampleDb (getDateFilter 0 none) exampleU2).length ∧
      e.approvedSubmissions =
        ((submissionsOf exampleDb (getDateFilter 0 none) exampleU2).filter
          (fun s => s.status == .approved)).length ∧
      e.averageScore =
        (if (approvedScoresOf exampleDb (getDateFilter 0 none) exampleU2).length = 0 then 0
         else ((approvedScoresOf exampleDb (getDateFilter 0 none) exampleU2).map
            (fun n => (n : Rat))).sum /
           ((approvedScoresOf exampleDb (getDateFilter 0 none) exampleU2).length : Rat)) :=
  leaderboard_aggregation exampleDb 0 none exampleU2 (by decide) rfl (by decide)

/-- C2 witness: the admission theorem on a concrete empty cache with six
immediate requests. -/
theorem rate_limit_admission_witness :
    ∃ retryAfter resetTime,
      (runRateRequests ⟨10000, []⟩ ⟨5, 60⟩ "u" "/api/x" [0, 0, 0, 0, 0, 0]).1 =
        [.admitted, .admitted, .admitted, .admitted, .admitted,
          .rejected retryAfter 5 0 resetTime] ∧
      0 ≤ retryAfter ∧ retryAfter ≤ 60 ∧
      lookupEntry
        (runRateRequests ⟨10000, []⟩ ⟨5, 60⟩ "u" "/api/x" [0, 0, 0, 0, 0, 0]).2.entries
        (rateLimitKey "u" "/api/x") = some ⟨"5", 0 + 60 * 1000⟩ :=
  rate_limit_admission ⟨10000, []⟩ "u" "/api/x" 0 0 0 0 0 0 rfl (by decide) (by decide)
    (by decide) (by decide) (by decide) (by decide)
